import Mathlib

/-!
# Verification of the GitHub search tool's pagination loop and exporters

A shallow embedding of `src/github-search-tool.py` together with proofs
about its pagination-retry-fetch loop (`fetch_results`) and its JSON / CSV /
TSV / XML export paths with the optional description-translation enrichment.

Modelling conventions:
* Python values flowing through records are embedded as the inductive
  `Value` (strings, ints, bools, None, lists, dicts).  A repository record
  (a Python dict) is an association list `Repo` with unique keys; Python's
  insertion-order iteration is the list order.
* The network is an oracle: the `t`-th call of `session.get` inside
  `fetch_results` has its observable outcome (parsed item list, HTTP error
  status after the transport adapter's retries, or any other exception)
  given by a function `Nat → FetchOutcome`.  The transport-level retry
  policy configured in `search_github` lives below this interface.
* The `while` loop of `fetch_results` is embedded fuel-indexed
  (`fetchResultsAux`); `none` means the fuel was exhausted, which is how
  non-termination is observed.  The calls to `sleep` are recorded in an
  event trace together with each page fetch.
* `langdetect.detect` and the LibreTranslate call inside `translate_text`
  are oracles `detect : Value → String` and `api : Value → Option String`
  (`none` = the request raised, which `translate_text` turns into returning
  the original text).
* File writing is not modelled; an exporter's output is the data it would
  serialize: the enriched record list for JSON, the header and cell rows
  for CSV/TSV, the per-record child elements (tag, text) for XML.
-/

/-- A Python value as it appears in the GitHub API's JSON records. -/
inductive Value where
  | vStr (s : String)
  | vInt (n : Int)
  | vBool (b : Bool)
  | vNull
  | vList (xs : List Value)
  | vDict (fields : List (String × Value))

/-- A repository record: a Python dict in insertion order. -/
abbrev Repo := List (String × Value)

/-- Python truthiness (`if value:`) for the embedded values. -/
def truthy : Value → Bool
  | .vStr s => !s.isEmpty
  | .vInt n => n != 0
  | .vBool b => b
  | .vNull => false
  | .vList xs => !xs.isEmpty
  | .vDict l => !l.isEmpty

/-- Python `d.get(k)` / `d[k]` on a dict: first (only) binding of `k`. -/
def getField : List (String × Value) → String → Option Value
  | [], _ => none
  | (k', v) :: rest, k => if k' = k then some v else getField rest k

/-- Update every binding of `k` in place (Python dict assignment keeps the
key's position; keys are unique, so at most one binding changes). -/
def rowSet : List (String × Value) → String → Value → List (String × Value)
  | [], _, _ => []
  | (k', v') :: rest, k, v =>
    if k' = k then (k, v) :: rowSet rest k v else (k', v') :: rowSet rest k v

/-- Python `d[k] = v` on a dict: overwrite in place if present, else append. -/
def setField (r : Repo) (k : String) (v : Value) : Repo :=
  if k ∈ r.map Prod.fst then rowSet r k v else r ++ [(k, v)]

mutual
/-- Python `repr`, used by `str` on nested containers.  (Escaping of quote
characters inside strings is not reproduced; no modelled code path depends
on it.) -/
def pyRepr : Value → String
  | .vStr s => "\x27" ++ s ++ "\x27"
  | .vInt n => toString n
  | .vBool true => "True"
  | .vBool false => "False"
  | .vNull => "None"
  | .vList xs => "[" ++ pyReprList xs ++ "]"
  | .vDict l => "\x7b" ++ pyReprDict l ++ "\x7d"

def pyReprList : List Value → String
  | [] => ""
  | [x] => pyRepr x
  | x :: y :: xs => pyRepr x ++ ", " ++ pyReprList (y :: xs)

def pyReprDict : List (String × Value) → String
  | [] => ""
  | [(k, v)] => "\x27" ++ k ++ "\x27: " ++ pyRepr v
  | (k, v) :: y :: xs =>
    "\x27" ++ k ++ "\x27: " ++ pyRepr v ++ ", " ++ pyReprDict (y :: xs)
end

/-- Python `str(value)`. -/
def pyStr : Value → String
  | .vStr s => s
  | .vInt n => toString n
  | .vBool true => "True"
  | .vBool false => "False"
  | .vNull => "None"
  | .vList xs => pyRepr (.vList xs)
  | .vDict l => pyRepr (.vDict l)

/-- Is the value a nested structure (`isinstance(value, (dict, list))`)? -/
def Value.isNested : Value → Bool
  | .vDict _ => true
  | .vList _ => true
  | _ => false

/-- Function `translate_text` (lines 22-34): returns the input unchanged when the
translation capability is unavailable or when the LibreTranslate call fails
(`api _ = none`); otherwise the `translatedText` field of the response. -/
def translate_text (avail : Bool) (api : Value → Option String)
    (text : Value) : Value :=
  if avail then
    match api text with
    | some s => .vStr s
    | none => text
  else text

/-- Expression `detect(text) if TRANSLATION_AVAILABLE else ..en..`, shared
by all three enrichment sites (lines 93-94, 124-125, 149). -/
def detectLang (avail : Bool) (detect : Value → String) (d : Value) :
    String :=
  if avail then detect d else "en"

/-- The accepted-language set of the enrichment policy (`['en', 'ar']`). -/
def acceptedLangs : List String := ["en", "ar"]

/-- Observable outcome of one `session.get` + `raise_for_status` +
`response.json().get('items', [])` sequence inside the fetch loop:
a parsed item list, an `HTTPError` with the response's status code, or any
other exception (connection errors, exhausted-retry errors, JSON errors). -/
inductive FetchOutcome where
  | items (its : List Repo)
  | httpError (status : Nat)
  | otherError

/-- Timed events of one `fetch_results` run: a page request, or a call of
`sleep` with its duration in seconds. -/
inductive Event where
  | fetchCall (page : Nat)
  | sleep (seconds : Nat)
deriving DecidableEq

/-- Result of a terminating `fetch_results` run: the returned record list,
the event trace, and the item lists of the successfully fetched pages in
fetch order. -/
structure RunOut where
  results : List Repo
  trace : List Event
  pages : List (List Repo)

/-- The `while len(results) < num_results` loop of `fetch_results`
(lines 65-85), fuel-indexed.  State: accumulated `results`, current `page`,
and the oracle index `calls` counting fetch attempts.  `none` means the
fuel ran out, i.e. the loop was still running. -/
def fetchResultsAux (f : Nat → FetchOutcome) (num_results : Nat) :
    Nat → List Repo → Nat → Nat → Option RunOut
  | 0, _, _, _ => none
  | fuel + 1, results, page, calls =>
    if results.length < num_results then
      match f calls with
      | .items its =>
        if its.isEmpty then
          -- `if not items: break`
          some ⟨results, [.fetchCall page], [its]⟩
        else
          -- `results.extend(items); page += 1; sleep(1)`
          (fetchResultsAux f num_results fuel (results ++ its) (page + 1)
              (calls + 1)).map
            (fun o => ⟨o.results, .fetchCall page :: .sleep 1 :: o.trace,
              its :: o.pages⟩)
      | .httpError status =>
        if status = 403 then
          -- rate limited: `sleep(60)` and retry the same page
          (fetchResultsAux f num_results fuel results page (calls + 1)).map
            (fun o => ⟨o.results, .fetchCall page :: .sleep 60 :: o.trace,
              o.pages⟩)
        else
          -- any other HTTP error: `break`
          some ⟨results, [.fetchCall page], []⟩
      | .otherError =>
        -- `except Exception: break`
        some ⟨results, [.fetchCall page], []⟩
    else
      some ⟨results, [], []⟩

/-- Function `fetch_results` (lines 61-86): run the loop from `results = []`,
`page = 1`, then `return results[:num_results]`. -/
def fetch_results (f : Nat → FetchOutcome) (num_results : Nat)
    (fuel : Nat) : Option RunOut :=
  (fetchResultsAux f num_results fuel [] 1 0).map
    (fun o => ⟨o.results.take num_results, o.trace, o.pages⟩)

/-- The per-record enrichment pass of `save_to_json` (lines 91-100):
if translation is requested and the record has a truthy `description`,
classify it; store the translation under `description_translated` when the
detected tag is outside the accepted set, else store the empty string.
`save_to_json` then dumps the records as they stand, so the enriched list
is the JSON output's content. -/
def enrichRecord (avail : Bool) (detect : Value → String)
    (api : Value → Option String) (translate : Bool) (repo : Repo) : Repo :=
  match getField repo "description" with
  | some d =>
    if translate && truthy d then
      if detectLang avail detect d ∉ acceptedLangs then
        setField repo "description_translated" (translate_text avail api d)
      else
        setField repo "description_translated" (.vStr "")
    else repo
  | none => repo

/-- Function `save_to_json` (lines 89-103): enrich every record in place; the dumped
JSON array contains exactly these records. -/
def save_to_json (avail : Bool) (detect : Value → String)
    (api : Value → Option String) (data : List Repo) (translate : Bool) :
    List Repo :=
  data.map (enrichRecord avail detect api translate)

/-- The fixed CSV/TSV field projection (lines 111-113). -/
def csvFieldnames : List String :=
  ["name", "full_name", "html_url", "description", "description_translated",
   "stargazers_count", "watchers_count", "forks_count",
   "language", "license", "updated_at"]

/-- The row dict comprehension of line 120: one entry per projected field,
holding `repo.get(field, ...)` with the empty string as default. -/
def baseRow (repo : Repo) : List (String × Value) :=
  csvFieldnames.map (fun field => (field, (getField repo field).getD (.vStr "")))

/-- Lines 121-122: `if 'license' in repo and repo['license']:
row['license'] = repo['license'].get('name', '')`.  `none` models the
`AttributeError` Python would raise when a truthy license value is not a
dict. -/
def licenseStep (repo : Repo) (row : List (String × Value)) :
    Option (List (String × Value)) :=
  match getField repo "license" with
  | some lv =>
    if truthy lv then
      match lv with
      | .vDict l => some (rowSet row "license" ((getField l "name").getD (.vStr "")))
      | _ => none
    else some row
  | none => some row

/-- Lines 123-131: the CSV-side enrichment, written into the row (the
record itself is not mutated on this path). -/
def translateStep (avail : Bool) (detect : Value → String)
    (api : Value → Option String) (translate : Bool) (repo : Repo)
    (row : List (String × Value)) : List (String × Value) :=
  match getField repo "description" with
  | some d =>
    if translate && truthy d then
      if detectLang avail detect d ∉ acceptedLangs then
        rowSet row "description_translated" (translate_text avail api d)
      else
        rowSet row "description_translated" (.vStr "")
    else row
  | none => row

/-- One record's row before rendering: base projection, license
projection, then optional enrichment. -/
def csvRowAssoc (avail : Bool) (detect : Value → String)
    (api : Value → Option String) (translate : Bool) (repo : Repo) :
    Option (List (String × Value)) :=
  (licenseStep repo (baseRow repo)).map
    (translateStep avail detect api translate repo)

/-- How `csv.DictWriter.writerow` renders one cell value: `None` becomes
the empty string, anything else goes through `str`. -/
def csvRender : Value → String
  | .vNull => ""
  | v => pyStr v

/-- One record's rendered cell row, in `csvFieldnames` order. -/
def csvRowOf (avail : Bool) (detect : Value → String)
    (api : Value → Option String) (translate : Bool) (repo : Repo) :
    Option (List String) :=
  (csvRowAssoc avail detect api translate repo).map
    (List.map (fun p => csvRender p.2))

/-- Render every record's row; `none` as soon as one row raises. -/
def csvRowsAux (avail : Bool) (detect : Value → String)
    (api : Value → Option String) (translate : Bool) :
    List Repo → Option (List (List String))
  | [] => some []
  | repo :: rest =>
    match csvRowOf avail detect api translate repo,
        csvRowsAux avail detect api translate rest with
    | some row, some rows => some (row :: rows)
    | _, _ => none

/-- The row matrix `save_to_csv` writes (lines 106-132): `none` for the
empty collection (`if not data: return` — no file, no header row),
otherwise the header row followed by one rendered row per record. -/
def csvRows (avail : Bool) (detect : Value → String)
    (api : Value → Option String) (translate : Bool) (data : List Repo) :
    Option (List (List String)) :=
  match data with
  | [] => none
  | _ :: _ =>
    (csvRowsAux avail detect api translate data).map
      (fun rows => csvFieldnames :: rows)

/-- Cell quoting of the csv module (QUOTE_MINIMAL): quote a cell containing the
delimiter, a quote character, or a line break, doubling inner quotes. -/
def csvQuoteCell (delim : Char) (cell : String) : String :=
  if cell.toList.any (fun c => c = delim || c = '"' || c = '\r' || c = '\n')
  then
    "\"" ++ String.mk (cell.toList.flatMap
      (fun c => if c = '"' then ['"', '"'] else [c])) ++ "\""
  else cell

/-- One physical CSV line: cells joined by the delimiter, `\r\n` ended. -/
def csvLine (delim : Char) (cells : List String) : String :=
  String.intercalate (String.singleton delim) (cells.map (csvQuoteCell delim))
    ++ "\r\n"

/-- Serialize a row matrix with the given delimiter. -/
def csvSerialize (delim : Char) (rows : List (List String)) : String :=
  String.join (rows.map (csvLine delim))

/-- Function `save_to_csv` (lines 106-133): the file content, `none` when nothing is
written.  The caller passes `delim = ','` for CSV and `'\t'` for TSV
(lines 249-251); everything except the serialization delimiter is shared. -/
def save_to_csv (avail : Bool) (detect : Value → String)
    (api : Value → Option String) (data : List Repo) (translate : Bool)
    (delim : Char) : Option String :=
  (csvRows avail detect api translate data).map (csvSerialize delim)

/-- Truthiness of `repo.get('description')`: absent keys give `None`,
which is falsy. -/
def descTruthy : Option Value → Bool
  | some d => truthy d
  | none => false

/-- The child elements one record contributes in `save_to_xml`
(lines 139-157), as (tag, text) pairs, for one `(key, value)` item of the
record's dict.  `descVal` is `repo.get('description')`, consulted by the
enrichment guard.  In the translated branch the code assigns `.text =
value` and `.text = translated_text` directly; both are strings whenever
the record's description is a string, which is the only case the theorems
below rely on. -/
def emitOne (avail : Bool) (detect : Value → String)
    (api : Value → Option String) (translate : Bool) (descVal : Option Value)
    (k : String) (v : Value) : List (String × String) :=
  if k = "owner" ∨ k = "license" then []
  else if v.isNested = true then []
  else if k = "description" ∧ translate = true ∧ descTruthy descVal = true then
    -- `repo['description']`; the guard guarantees the key is present, so
    -- the `getD` default is never consulted
    if detectLang avail detect (descVal.getD Value.vNull) ∉ acceptedLangs then
      [(k, pyStr v),
       ("description_translated",
        pyStr (translate_text avail api (descVal.getD Value.vNull)))]
    else [(k, pyStr v)]
  else [(k, pyStr v)]

/-- All child elements of one `<repository>` element, in record order. -/
def xmlItems (avail : Bool) (detect : Value → String)
    (api : Value → Option String) (translate : Bool) (repo : Repo) :
    List (String × String) :=
  repo.flatMap
    (fun p => emitOne avail detect api translate (getField repo "description")
      p.1 p.2)

/-- Function `save_to_xml` (lines 136-161): one child-element list per record under
the `<repositories>` root. -/
def save_to_xml (avail : Bool) (detect : Value → String)
    (api : Value → Option String) (data : List Repo) (translate : Bool) :
    List (List (String × String)) :=
  data.map (xmlItems avail detect api translate)

/-- The delay discipline of one `fetch_results` trace, relative to the
fetch oracle, starting at call index `calls` on page `page`:
every successful fetch of a non-empty page is followed by exactly
`sleep 1`, every rate-limited fetch (status 403) by exactly `sleep 60` and
a retry of the same page, and an empty page or a terminal failure ends the
trace with no sleep after it. -/
inductive DelayDiscipline (f : Nat → FetchOutcome) :
    Nat → Nat → List Event → Prop where
  | target (calls page : Nat) : DelayDiscipline f calls page []
  | exhausted (calls page : Nat) (h : f calls = .items []) :
      DelayDiscipline f calls page [.fetchCall page]
  | fatal (calls page : Nat)
      (h : (∃ s, f calls = .httpError s ∧ s ≠ 403) ∨ f calls = .otherError) :
      DelayDiscipline f calls page [.fetchCall page]
  | success (calls page : Nat) (its : List Repo) (h : f calls = .items its)
      (hne : its ≠ []) (rest : List Event)
      (hr : DelayDiscipline f (calls + 1) (page + 1) rest) :
      DelayDiscipline f calls page (.fetchCall page :: .sleep 1 :: rest)
  | rateLimited (calls page : Nat) (h : f calls = .httpError 403)
      (rest : List Event) (hr : DelayDiscipline f (calls + 1) page rest) :
      DelayDiscipline f calls page (.fetchCall page :: .sleep 60 :: rest)

/-! ## Concrete data used to exercise the theorems -/

def recA : Repo := [("name", Value.vStr "alpha")]
def recB : Repo := [("name", Value.vStr "beta")]
def recC : Repo := [("name", Value.vStr "gamma")]

/-- A fetcher serving two pages of three records, then an empty page. -/
def pagesThenEmpty : Nat → FetchOutcome
  | 0 => .items [recA, recB, recC]
  | 1 => .items [recA, recB, recC]
  | _ => .items []

/-- A fetcher that is rate limited once, then exhausted. -/
def rateOnce : Nat → FetchOutcome
  | 0 => .httpError 403
  | _ => .items []

/-- A fetcher whose every page is empty. -/
def alwaysEmpty : Nat → FetchOutcome := fun _ => .items []

/-- A fetcher that always fails with HTTP 500. -/
def always500 : Nat → FetchOutcome := fun _ => .httpError 500

/-- A fetcher that is rate limited on every attempt. -/
def always403 : Nat → FetchOutcome := fun _ => .httpError 403

/-- A language classifier that always answers French. -/
def detectFr : Value → String := fun _ => "fr"

/-- A language classifier that always answers English. -/
def detectEn : Value → String := fun _ => "en"

/-- A translation backend whose every request fails. -/
def apiNone : Value → Option String := fun _ => none

/-- A translation backend that always answers a fixed text. -/
def apiHello : Value → Option String := fun _ => some "hello world"

/-- A record with a nested license, a nested owner and a French
description. -/
def repoX : Repo :=
  [("name", Value.vStr "proj"),
   ("license", Value.vDict [("name", Value.vStr "MIT")]),
   ("owner", Value.vDict [("login", Value.vStr "mo")]),
   ("description", Value.vStr "Bonjour le monde")]

/-- A record with boolean and null fields. -/
def repoB : Repo :=
  [("name", Value.vStr "x"), ("private", Value.vBool false),
   ("fork", Value.vBool true), ("mirror_url", Value.vNull)]

/-- A record with an English description. -/
def repoEn : Repo :=
  [("name", Value.vStr "x"), ("description", Value.vStr "hello")]

/-- A record whose name contains the CSV delimiter. -/
def repoComma : Repo := [("name", Value.vStr "a,b")]

/-- A record whose license is an empty (falsy) dict. -/
def repoEmptyLic : Repo :=
  [("name", Value.vStr "x"), ("license", Value.vDict [])]

/-! ## Loop-step equations for `fetchResultsAux` -/

theorem fetchResultsAux_zero (f : Nat → FetchOutcome) (N : Nat)
    (results : List Repo) (page calls : Nat) :
    fetchResultsAux f N 0 results page calls = none := rfl

theorem fetchResultsAux_done (f : Nat → FetchOutcome) (N fuel : Nat)
    (results : List Repo) (page calls : Nat) (h : ¬ results.length < N) :
    fetchResultsAux f N (fuel + 1) results page calls =
      some ⟨results, [], []⟩ := by
  rw [fetchResultsAux, if_neg h]

theorem fetchResultsAux_empty (f : Nat → FetchOutcome) (N fuel : Nat)
    (results : List Repo) (page calls : Nat) (hlt : results.length < N)
    (hf : f calls = .items []) :
    fetchResultsAux f N (fuel + 1) results page calls =
      some ⟨results, [.fetchCall page], [[]]⟩ := by
  rw [fetchResultsAux, if_pos hlt, hf]
  rfl

theorem fetchResultsAux_success (f : Nat → FetchOutcome) (N fuel : Nat)
    (results : List Repo) (page calls : Nat) (its : List Repo)
    (hlt : results.length < N) (hf : f calls = .items its) (hne : its ≠ []) :
    fetchResultsAux f N (fuel + 1) results page calls =
      (fetchResultsAux f N fuel (results ++ its) (page + 1) (calls + 1)).map
        (fun o => ⟨o.results, .fetchCall page :: .sleep 1 :: o.trace,
          its :: o.pages⟩) := by
  rw [fetchResultsAux, if_pos hlt, hf]
  simp [List.isEmpty_iff, hne]

theorem fetchResultsAux_rate (f : Nat → FetchOutcome) (N fuel : Nat)
    (results : List Repo) (page calls : Nat) (hlt : results.length < N)
    (hf : f calls = .httpError 403) :
    fetchResultsAux f N (fuel + 1) results page calls =
      (fetchResultsAux f N fuel results page (calls + 1)).map
        (fun o => ⟨o.results, .fetchCall page :: .sleep 60 :: o.trace,
          o.pages⟩) := by
  rw [fetchResultsAux, if_pos hlt, hf]
  rfl

theorem fetchResultsAux_httpFatal (f : Nat → FetchOutcome) (N fuel : Nat)
    (results : List Repo) (page calls s : Nat) (hlt : results.length < N)
    (hf : f calls = .httpError s) (hs : s ≠ 403) :
    fetchResultsAux f N (fuel + 1) results page calls =
      some ⟨results, [.fetchCall page], []⟩ := by
  rw [fetchResultsAux, if_pos hlt, hf]
  simp [hs]

theorem fetchResultsAux_other (f : Nat → FetchOutcome) (N fuel : Nat)
    (results : List Repo) (page calls : Nat) (hlt : results.length < N)
    (hf : f calls = .otherError) :
    fetchResultsAux f N (fuel + 1) results page calls =
      some ⟨results, [.fetchCall page], []⟩ := by
  rw [fetchResultsAux, if_pos hlt, hf]

/-- Accumulator invariant: a terminating run returns the records it started
with, extended by exactly the concatenation of the fetched pages' items. -/
theorem fetchResultsAux_results_eq (f : Nat → FetchOutcome) (N : Nat) :
    ∀ fuel results page calls o,
      fetchResultsAux f N fuel results page calls = some o →
      o.results = results ++ o.pages.flatten := by
  intro fuel
  induction fuel with
  | zero =>
    intro results page calls o h
    rw [fetchResultsAux_zero] at h
    exact absurd h (by simp)
  | succ fuel ih =>
    intro results page calls o h
    by_cases hlt : results.length < N
    · cases hf : f calls with
      | items its =>
        by_cases hne : its = []
        · subst hne
          rw [fetchResultsAux_empty f N fuel results page calls hlt hf] at h
          cases h
          simp
        · rw [fetchResultsAux_success f N fuel results page calls its hlt hf
            hne] at h
          cases hrec : fetchResultsAux f N fuel (results ++ its) (page + 1)
              (calls + 1) with
          | none => rw [hrec] at h; exact absurd h (by simp)
          | some o' =>
            rw [hrec] at h
            cases h
            have := ih (results ++ its) (page + 1) (calls + 1) o' hrec
            simp [this]
      | httpError s =>
        by_cases hs : s = 403
        · subst hs
          rw [fetchResultsAux_rate f N fuel results page calls hlt hf] at h
          cases hrec : fetchResultsAux f N fuel results page (calls + 1) with
          | none => rw [hrec] at h; exact absurd h (by simp)
          | some o' =>
            rw [hrec] at h
            cases h
            exact ih results page (calls + 1) o' hrec
        · rw [fetchResultsAux_httpFatal f N fuel results page calls s hlt hf
            hs] at h
          cases h
          simp
      | otherError =>
        rw [fetchResultsAux_other f N fuel results page calls hlt hf] at h
        cases h
        simp
    · rw [fetchResultsAux_done f N fuel results page calls hlt] at h
      cases h
      simp

/-! ## C1: length cap and order-preserving prefix -/

/-- C1.  For every fetch oracle, target count and fuel, a terminating
`fetch_results` run returns at most `num_results` records, and the returned
collection is an order-preserving prefix of the concatenation of the item
lists of the successfully fetched pages (the overshoot of the final page is
truncated by `results[:num_results]`). -/
theorem fetch_results_cap_and_order (f : Nat → FetchOutcome)
    (N fuel : Nat) (o : RunOut) (h : fetch_results f N fuel = some o) :
    o.results.length ≤ N ∧ o.results <+: o.pages.flatten := by
  unfold fetch_results at h
  cases haux : fetchResultsAux f N fuel [] 1 0 with
  | none => rw [haux] at h; exact absurd h (by simp)
  | some o' =>
    rw [haux] at h
    have hres := fetchResultsAux_results_eq f N fuel [] 1 0 o' haux
    simp only [List.nil_append] at hres
    cases h
    refine ⟨?_, ?_⟩
    · simp [List.length_take]
    · show o'.results.take N <+: o'.pages.flatten
      rw [hres]
      exact ⟨(o'.pages.flatten).drop N, List.take_append_drop N _⟩

theorem fetch_results_cap_and_order_witness :
    ([recA, recB, recC, recA, recB] : List Repo).length ≤ 5 ∧
      [recA, recB, recC, recA, recB] <+:
        ([[recA, recB, recC], [recA, recB, recC]] : List (List Repo)).flatten :=
  fetch_results_cap_and_order pagesThenEmpty 5 3
    ⟨[recA, recB, recC, recA, recB],
     [.fetchCall 1, .sleep 1, .fetchCall 2, .sleep 1],
     [[recA, recB, recC], [recA, recB, recC]]⟩ (by rfl)

/-! ## C2: rate-limit cooldown and same-page retry -/

/-- C2.  When the target is not yet met and the fetch of the current page
reports HTTP status 403, the loop sleeps 60 seconds and re-enters the next
iteration with the same page number and the same accumulated records; only
the oracle index (the attempt counter) advances. -/
theorem rate_limit_cooldown_retries_same_page (f : Nat → FetchOutcome)
    (N fuel : Nat) (results : List Repo) (page calls : Nat)
    (hlt : results.length < N) (hf : f calls = .httpError 403) :
    fetchResultsAux f N (fuel + 1) results page calls =
      (fetchResultsAux f N fuel results page (calls + 1)).map
        (fun o => ⟨o.results, .fetchCall page :: .sleep 60 :: o.trace,
          o.pages⟩) :=
  fetchResultsAux_rate f N fuel results page calls hlt hf

theorem rate_limit_cooldown_retries_same_page_witness :
    fetchResultsAux rateOnce 5 2 [] 1 0 =
      (fetchResultsAux rateOnce 5 1 [] 1 1).map
        (fun o => ⟨o.results, .fetchCall 1 :: .sleep 60 :: o.trace,
          o.pages⟩) ∧
    fetchResultsAux rateOnce 5 2 [] 1 0 =
      some ⟨[], [.fetchCall 1, .sleep 60, .fetchCall 1], [[]]⟩ :=
  ⟨rate_limit_cooldown_retries_same_page rateOnce 5 1 [] 1 0 (by decide) rfl,
   by rfl⟩

/-! ## C3: an empty page terminates the collection -/

/-- C3.  When the target is not yet met and the fetched page parses to an
empty item list, the loop breaks at once: the run ends with exactly the
records accumulated before that page, the trace shows that fetch as the
last event (no further fetch calls and no sleep), and the final
`results[:num_results]` truncation returns them unchanged because the
accumulator is still below the target. -/
theorem empty_page_returns_accumulated (f : Nat → FetchOutcome)
    (N fuel : Nat) (results : List Repo) (page calls : Nat)
    (hlt : results.length < N) (hf : f calls = .items []) :
    fetchResultsAux f N (fuel + 1) results page calls =
      some ⟨results, [.fetchCall page], [[]]⟩ ∧
    results.take N = results :=
  ⟨fetchResultsAux_empty f N fuel results page calls hlt hf,
   List.take_of_length_le (Nat.le_of_lt hlt)⟩

theorem empty_page_returns_accumulated_witness :
    fetchResultsAux alwaysEmpty 5 3 [recA] 2 1 =
      some ⟨[recA], [.fetchCall 2], [[]]⟩ ∧
    ([recA] : List Repo).take 5 = [recA] :=
  empty_page_returns_accumulated alwaysEmpty 5 2 [recA] 2 1 (by decide) rfl

/-! ## C4: terminal failures return the partial collection -/

/-- C4.  When the target is not yet met and the fetch of the current page
either raises an HTTP error with a status other than 403 or raises any
other exception, the loop breaks at once and the run returns the records
accumulated so far as a normal value (no exception escapes `fetch_results`:
a terminating run is `some`); the final truncation to the target count
leaves them unchanged because the accumulator is below the target. -/
theorem terminal_failure_returns_accumulated (f : Nat → FetchOutcome)
    (N fuel : Nat) (results : List Repo) (page calls : Nat)
    (hlt : results.length < N) :
    (∀ s, f calls = .httpError s → s ≠ 403 →
      fetchResultsAux f N (fuel + 1) results page calls =
        some ⟨results, [.fetchCall page], []⟩) ∧
    (f calls = .otherError →
      fetchResultsAux f N (fuel + 1) results page calls =
        some ⟨results, [.fetchCall page], []⟩) ∧
    results.take N = results :=
  ⟨fun s hf hs => fetchResultsAux_httpFatal f N fuel results page calls s hlt hf hs,
   fun hf => fetchResultsAux_other f N fuel results page calls hlt hf,
   List.take_of_length_le (Nat.le_of_lt hlt)⟩

theorem terminal_failure_returns_accumulated_witness :
    fetchResultsAux always500 3 1 [recA] 2 1 =
      some ⟨[recA], [.fetchCall 2], []⟩ ∧
    ([recA] : List Repo).take 3 = [recA] :=
  ⟨(terminal_failure_returns_accumulated always500 3 0 [recA] 2 1 (by decide)).1
      500 rfl (by decide),
   (terminal_failure_returns_accumulated always500 3 0 [recA] 2 1 (by decide)).2.2⟩

/-! ## C8: placement of the politeness delay -/

/-- Every terminating loop run's trace obeys the delay discipline of the
source: `sleep 1` exactly after each non-empty successful page, `sleep 60`
exactly after each rate-limited fetch, nothing after an empty page or a
terminal failure. -/
theorem fetchResultsAux_delay (f : Nat → FetchOutcome) (N : Nat) :
    ∀ fuel results page calls o,
      fetchResultsAux f N fuel results page calls = some o →
      DelayDiscipline f calls page o.trace := by
  intro fuel
  induction fuel with
  | zero =>
    intro r p c o h
    rw [fetchResultsAux_zero] at h
    exact absurd h (by simp)
  | succ fuel ih =>
    intro r p c o h
    by_cases hlt : r.length < N
    · cases hf : f c with
      | items its =>
        by_cases hne : its = []
        · subst hne
          rw [fetchResultsAux_empty f N fuel r p c hlt hf] at h
          cases h
          exact .exhausted c p hf
        · rw [fetchResultsAux_success f N fuel r p c its hlt hf hne] at h
          cases hrec : fetchResultsAux f N fuel (r ++ its) (p + 1) (c + 1) with
          | none => rw [hrec] at h; exact absurd h (by simp)
          | some o' =>
            rw [hrec] at h
            cases h
            exact .success c p its hf hne o'.trace (ih _ _ _ _ hrec)
      | httpError s =>
        by_cases hs : s = 403
        · subst hs
          rw [fetchResultsAux_rate f N fuel r p c hlt hf] at h
          cases hrec : fetchResultsAux f N fuel r p (c + 1) with
          | none => rw [hrec] at h; exact absurd h (by simp)
          | some o' =>
            rw [hrec] at h
            cases h
            exact .rateLimited c p hf o'.trace (ih _ _ _ _ hrec)
        · rw [fetchResultsAux_httpFatal f N fuel r p c s hlt hf hs] at h
          cases h
          exact .fatal c p (Or.inl ⟨s, hf, hs⟩)
      | otherError =>
        rw [fetchResultsAux_other f N fuel r p c hlt hf] at h
        cases h
        exact .fatal c p (Or.inr hf)
    · rw [fetchResultsAux_done f N fuel r p c hlt] at h
      cases h
      exact .target c p

/-- C8 counterexample.  A single page that already meets the target count:
the run is complete, yet the politeness `sleep 1` still follows this final
(and only) page fetch — the last trace event is the delay, contradicting
the claim that no delay occurs after the final fetched page. -/
theorem politeness_delay_follows_final_page :
    fetch_results pagesThenEmpty 2 2 =
      some ⟨[recA, recB], [.fetchCall 1, .sleep 1], [[recA, recB, recC]]⟩ ∧
    (fetch_results pagesThenEmpty 2 2).map (fun o => o.trace.getLast?) =
      some (some (.sleep 1)) := by
  exact ⟨rfl, rfl⟩

/-- C8 (amended).  The fixed 1-second politeness delay follows every
successful fetch of a non-empty page — including the final one that meets
the target count — and never anything else: an empty page or a terminal
failure ends the trace with no delay after it, and a rate-limited fetch is
followed by the 60-second cooldown instead.  This is the `DelayDiscipline`
relation, which every terminating loop run (and so every terminating
`fetch_results` run, which starts at call 0, page 1) satisfies. -/
theorem politeness_delay_placement (f : Nat → FetchOutcome) (N : Nat) :
    (∀ fuel results page calls o,
      fetchResultsAux f N fuel results page calls = some o →
      DelayDiscipline f calls page o.trace) ∧
    (∀ fuel o, fetch_results f N fuel = some o →
      DelayDiscipline f 0 1 o.trace) := by
  refine ⟨fetchResultsAux_delay f N, fun fuel o h => ?_⟩
  unfold fetch_results at h
  cases haux : fetchResultsAux f N fuel [] 1 0 with
  | none => rw [haux] at h; exact absurd h (by simp)
  | some o' =>
    rw [haux] at h
    cases h
    exact fetchResultsAux_delay f N fuel [] 1 0 o' haux

theorem politeness_delay_placement_witness :
    DelayDiscipline pagesThenEmpty 0 1 [.fetchCall 1, .sleep 1] :=
  (politeness_delay_placement pagesThenEmpty 2).2 2
    ⟨[recA, recB], [.fetchCall 1, .sleep 1], [[recA, recB, recC]]⟩ (by rfl)

/-! ## C9: unbounded rate-limit retries vs. termination -/

/-- Under an oracle that answers 403 from call index `calls` on, the loop
never terminates: no fuel returns a value. -/
theorem fetchResultsAux_always403_none (f : Nat → FetchOutcome) (N : Nat) :
    ∀ fuel (results : List Repo) (page calls : Nat),
      results.length < N → (∀ c, calls ≤ c → f c = .httpError 403) →
      fetchResultsAux f N fuel results page calls = none := by
  intro fuel
  induction fuel with
  | zero => intro r p c _ _; rfl
  | succ fuel ih =>
    intro r p c hlt hall
    rw [fetchResultsAux_rate f N fuel r p c hlt (hall c (Nat.le_refl c)),
      ih r p (c + 1) hlt (fun c' hc' => hall c' (Nat.le_of_succ_le hc'))]
    rfl

/-- One non-403 outcome at the current call lets the loop either stop or
grow the accumulator; with termination granted for every longer
accumulator, the current state terminates. -/
theorem fetchResults_term_step (f : Nat → FetchOutcome) (N : Nat)
    (r : List Repo) (p c : Nat) (hnf : f c ≠ .httpError 403)
    (H : ∀ (r' : List Repo) (p' c' : Nat), r.length < r'.length →
      ∃ fuel, (fetchResultsAux f N fuel r' p' c').isSome) :
    ∃ fuel, (fetchResultsAux f N fuel r p c).isSome := by
  by_cases hlt : r.length < N
  · cases hf : f c with
    | items its =>
      by_cases hne : its = []
      · exact ⟨1, by rw [fetchResultsAux_empty f N 0 r p c hlt (hne ▸ hf)]; rfl⟩
      · obtain ⟨fuel, hfuel⟩ := H (r ++ its) (p + 1) (c + 1) (by
          have : 0 < its.length := List.length_pos.mpr hne
          simp only [List.length_append]
          omega)
        refine ⟨fuel + 1, ?_⟩
        rw [fetchResultsAux_success f N fuel r p c its hlt hf hne]
        cases hx : fetchResultsAux f N fuel (r ++ its) (p + 1) (c + 1) with
        | none => rw [hx] at hfuel; simp at hfuel
        | some o => simp
    | httpError s =>
      by_cases hs : s = 403
      · exact absurd (hs ▸ hf) hnf
      · exact ⟨1, by rw [fetchResultsAux_httpFatal f N 0 r p c s hlt hf hs]; rfl⟩
    | otherError =>
      exact ⟨1, by rw [fetchResultsAux_other f N 0 r p c hlt hf]; rfl⟩
  · exact ⟨1, by rw [fetchResultsAux_done f N 0 r p c hlt]; rfl⟩

/-- If some call at distance `d` from the current one is not a 403, the
loop escapes the cooldown run and terminates (given termination for every
longer accumulator). -/
theorem fetchResults_term_escape (f : Nat → FetchOutcome) (N : Nat) :
    ∀ (d : Nat) (r : List Repo) (p c : Nat),
      f (c + d) ≠ .httpError 403 →
      (∀ (r' : List Repo) (p' c' : Nat), r.length < r'.length →
        ∃ fuel, (fetchResultsAux f N fuel r' p' c').isSome) →
      ∃ fuel, (fetchResultsAux f N fuel r p c).isSome := by
  intro d
  induction d with
  | zero =>
    intro r p c h0 H
    exact fetchResults_term_step f N r p c (by simpa using h0) H
  | succ d ih =>
    intro r p c h0 H
    by_cases hf403 : f c = .httpError 403
    · by_cases hlt : r.length < N
      · obtain ⟨fuel, hfuel⟩ := ih r p (c + 1)
          (by rw [show c + 1 + d = c + (d + 1) by omega]; exact h0) H
        refine ⟨fuel + 1, ?_⟩
        rw [fetchResultsAux_rate f N fuel r p c hlt hf403]
        cases hx : fetchResultsAux f N fuel r p (c + 1) with
        | none => rw [hx] at hfuel; simp at hfuel
        | some o => simp
      · exact ⟨1, by rw [fetchResultsAux_done f N 0 r p c hlt]; rfl⟩
    · exact fetchResults_term_step f N r p c hf403 H

/-- A fetch oracle that is never eventually-always 403 makes the loop
terminate from every state. -/
theorem fetchResults_term_all (f : Nat → FetchOutcome) (N : Nat)
    (hf : ∀ c, ∃ d, f (c + d) ≠ .httpError 403) :
    ∀ (k : Nat) (r : List Repo) (p c : Nat), N - r.length ≤ k →
      ∃ fuel, (fetchResultsAux f N fuel r p c).isSome := by
  intro k
  induction k with
  | zero =>
    intro r p c hk
    exact ⟨1, by rw [fetchResultsAux_done f N 0 r p c (by omega)]; rfl⟩
  | succ k ih =>
    intro r p c hk
    by_cases hlt : r.length < N
    · obtain ⟨d, hd⟩ := hf c
      exact fetchResults_term_escape f N d r p c hd
        (fun r' p' c' hlen => ih r' p' c' (by omega))
    · exact ⟨1, by rw [fetchResultsAux_done f N 0 r p c hlt]; rfl⟩

/-- C9.  No retry cap exists: (i) from any loop state still below the
target, an oracle that keeps answering 403 on every further call makes the
loop run forever — no amount of fuel produces a result, the loop stays on
that page; (ii) conversely, under any oracle whose calls are not
eventually-always 403 (every call index is followed by some non-403
outcome: items, exhaustion, or a terminal failure), `fetch_results`
terminates with some fuel. -/
theorem rate_limit_retries_unbounded (f : Nat → FetchOutcome) (N : Nat) :
    (∀ (results : List Repo) (page calls : Nat), results.length < N →
      (∀ c, calls ≤ c → f c = .httpError 403) →
      ∀ fuel, fetchResultsAux f N fuel results page calls = none) ∧
    ((∀ c, ∃ d, f (c + d) ≠ .httpError 403) →
      ∃ fuel, (fetch_results f N fuel).isSome) := by
  constructor
  · intro r p c hlt hall fuel
    exact fetchResultsAux_always403_none f N fuel r p c hlt hall
  · intro hf
    obtain ⟨fuel, hfuel⟩ := fetchResults_term_all f N hf N [] 1 0 (by simp)
    refine ⟨fuel, ?_⟩
    unfold fetch_results
    cases hx : fetchResultsAux f N fuel [] 1 0 with
    | none => rw [hx] at hfuel; simp at hfuel
    | some o => simp

theorem rate_limit_retries_unbounded_witness :
    fetchResultsAux always403 1 1000 [] 1 0 = none ∧
    ∃ fuel, (fetch_results alwaysEmpty 1 fuel).isSome :=
  ⟨(rate_limit_retries_unbounded always403 1).1 [] 1 0 (by decide)
      (fun _ _ => rfl) 1000,
   (rate_limit_retries_unbounded alwaysEmpty 1).2
      (fun _ => ⟨0, fun h => FetchOutcome.noConfusion h⟩)⟩

/-! ## Dictionary lemmas -/

theorem getField_eq_none_of_not_mem :
    ∀ (r : List (String × Value)) (k : String), k ∉ r.map Prod.fst →
      getField r k = none := by
  intro r
  induction r with
  | nil => intro k _; rfl
  | cons p rest ih =>
    intro k h
    obtain ⟨k', v'⟩ := p
    simp only [List.map_cons, List.mem_cons] at h
    push_neg at h
    rw [getField, if_neg (fun hk => h.1 hk.symm)]
    exact ih k h.2

theorem getField_some_mem :
    ∀ (r : List (String × Value)) (k : String) (v : Value),
      getField r k = some v → (k, v) ∈ r := by
  intro r
  induction r with
  | nil => intro k v h; exact absurd h (by simp [getField])
  | cons p rest ih =>
    intro k v h
    obtain ⟨k', v'⟩ := p
    rw [getField] at h
    by_cases hk : k' = k
    · rw [if_pos hk] at h
      cases h
      subst hk
      exact List.Mem.head _
    · rw [if_neg hk] at h
      exact List.Mem.tail _ (ih k v h)

theorem mem_getField_isSome :
    ∀ (r : List (String × Value)) (k : String) (v : Value),
      (k, v) ∈ r → (getField r k).isSome := by
  intro r
  induction r with
  | nil => intro k v h; exact absurd h (by simp)
  | cons p rest ih =>
    intro k v h
    obtain ⟨k', v'⟩ := p
    rw [getField]
    by_cases hk : k' = k
    · rw [if_pos hk]; rfl
    · rw [if_neg hk]
      rcases List.mem_cons.mp h with heq | hmem
      · cases heq; exact absurd rfl hk
      · exact ih k v hmem

theorem getField_eq_of_nodup :
    ∀ (r : List (String × Value)) (k : String) (v : Value),
      (r.map Prod.fst).Nodup → (k, v) ∈ r → getField r k = some v := by
  intro r
  induction r with
  | nil => intro k v _ h; exact absurd h (by simp)
  | cons p rest ih =>
    intro k v hn h
    obtain ⟨k', v'⟩ := p
    simp only [List.map_cons, List.nodup_cons] at hn
    rw [getField]
    rcases List.mem_cons.mp h with heq | hmem
    · cases heq
      rw [if_pos rfl]
    · by_cases hk : k' = k
      · subst hk
        exact absurd (List.mem_map.mpr ⟨(k', v), hmem, rfl⟩) hn.1
      · rw [if_neg hk]
        exact ih k v hn.2 hmem

theorem getField_append_of_not_mem :
    ∀ (r l : List (String × Value)) (k : String), k ∉ r.map Prod.fst →
      getField (r ++ l) k = getField l k := by
  intro r
  induction r with
  | nil => intro l k _; rfl
  | cons p rest ih =>
    intro l k h
    obtain ⟨k', v'⟩ := p
    simp only [List.map_cons, List.mem_cons] at h
    push_neg at h
    rw [List.cons_append, getField, if_neg (fun hk => h.1 hk.symm)]
    exact ih l k h.2

theorem getField_middle_ne :
    ∀ (l₁ l₂ : List (String × Value)) (k a : String) (v : Value), k ≠ a →
      getField (l₁ ++ (k, v) :: l₂) a = getField (l₁ ++ l₂) a := by
  intro l₁
  induction l₁ with
  | nil =>
    intro l₂ k a v h
    rw [List.nil_append, List.nil_append, getField, if_neg h]
  | cons p rest ih =>
    intro l₂ k a v h
    obtain ⟨k', v'⟩ := p
    rw [List.cons_append, List.cons_append, getField, getField]
    by_cases hk : k' = a
    · rw [if_pos hk, if_pos hk]
    · rw [if_neg hk, if_neg hk]
      exact ih l₂ k a v h

theorem getField_rowSet_ne (k fld : String) (v : Value)
    (h : fld ≠ k) :
    ∀ (row : List (String × Value)),
      getField (rowSet row k v) fld = getField row fld := by
  intro row
  induction row with
  | nil => rfl
  | cons p rest ih =>
    obtain ⟨k', v'⟩ := p
    rw [rowSet]
    by_cases hk : k' = k
    · rw [if_pos hk, getField, getField, if_neg (fun hh => h hh.symm),
        if_neg (fun hh => h (hk.symm.trans hh).symm)]
      exact ih
    · rw [if_neg hk, getField, getField]
      by_cases hfld : k' = fld
      · rw [if_pos hfld, if_pos hfld]
      · rw [if_neg hfld, if_neg hfld]
        exact ih

theorem getField_rowSet_self (k : String) (v : Value) :
    ∀ (row : List (String × Value)), k ∈ row.map Prod.fst →
      getField (rowSet row k v) k = some v := by
  intro row
  induction row with
  | nil => intro h; exact absurd h (by simp)
  | cons p rest ih =>
    intro h
    obtain ⟨k', v'⟩ := p
    rw [rowSet]
    by_cases hk : k' = k
    · rw [if_pos hk, getField, if_pos rfl]
    · rw [if_neg hk, getField, if_neg hk]
      simp only [List.map_cons, List.mem_cons] at h
      rcases h with h | h
      · exact absurd h.symm hk
      · exact ih h

theorem rowSet_keys (k : String) (v : Value) :
    ∀ (row : List (String × Value)),
      (rowSet row k v).map Prod.fst = row.map Prod.fst := by
  intro row
  induction row with
  | nil => rfl
  | cons p rest ih =>
    obtain ⟨k', v'⟩ := p
    rw [rowSet]
    by_cases hk : k' = k
    · rw [if_pos hk, List.map_cons, List.map_cons, ih, hk]
    · rw [if_neg hk, List.map_cons, List.map_cons, ih]

theorem getField_setField_self (r : Repo) (k : String) (v : Value) :
    getField (setField r k v) k = some v := by
  rw [setField]
  by_cases hmem : k ∈ r.map Prod.fst
  · rw [if_pos hmem]
    exact getField_rowSet_self k v r hmem
  · rw [if_neg hmem, getField_append_of_not_mem r [(k, v)] k hmem, getField,
      if_pos rfl]

theorem getField_map_pair (g : String → Value) :
    ∀ (l : List String) (x : String), x ∈ l →
      getField (l.map (fun f => (f, g f))) x = some (g x) := by
  intro l
  induction l with
  | nil => intro x h; exact absurd h (by simp)
  | cons a t ih =>
    intro x h
    rw [List.map_cons, getField]
    by_cases ha : a = x
    · rw [if_pos ha, ha]
    · rw [if_neg ha]
      rcases List.mem_cons.mp h with h | h
      · exact absurd h.symm ha
      · exact ih x h

theorem getField_baseRow (repo : Repo) (fld : String)
    (h : fld ∈ csvFieldnames) :
    getField (baseRow repo) fld =
      some ((getField repo fld).getD (.vStr "")) :=
  getField_map_pair _ csvFieldnames fld h

theorem baseRow_keys (repo : Repo) :
    (baseRow repo).map Prod.fst = csvFieldnames := by
  rw [baseRow, List.map_map,
    show (Prod.fst ∘ fun field => (field, (getField repo field).getD
      (Value.vStr ""))) = id from funext (fun _ => rfl), List.map_id]

theorem licenseStep_keys (repo : Repo) :
    ∀ (row row' : List (String × Value)), licenseStep repo row = some row' →
      row'.map Prod.fst = row.map Prod.fst := by
  intro row row' h
  cases hl : getField repo "license" with
  | none => simp [licenseStep, hl] at h; rw [← h]
  | some lv =>
    by_cases ht : truthy lv
    · cases lv with
      | vDict l =>
        simp [licenseStep, hl, ht] at h
        rw [← h]
        exact rowSet_keys _ _ row
      | vStr s => simp [licenseStep, hl, ht] at h
      | vInt n => simp [licenseStep, hl, ht] at h
      | vBool b => simp [licenseStep, hl, ht] at h
      | vNull => simp [licenseStep, hl, ht] at h
      | vList xs => simp [licenseStep, hl, ht] at h
    · simp [licenseStep, hl, ht] at h
      rw [← h]

theorem flatMap_congr_mem {α β : Type} (f g : α → List β) :
    ∀ (l : List α), (∀ a ∈ l, f a = g a) → l.flatMap f = l.flatMap g := by
  intro l
  induction l with
  | nil => intro _; rfl
  | cons a t ih =>
    intro h
    rw [List.flatMap_cons, List.flatMap_cons, h a (List.Mem.head _),
      ih (fun b hb => h b (List.Mem.tail _ hb))]

/-! ## XML emission lemmas -/

theorem emitOne_skip_key (avail : Bool) (detect : Value → String)
    (api : Value → Option String) (tr : Bool) (dv : Option Value)
    (k : String) (v : Value) (h : k = "owner" ∨ k = "license") :
    emitOne avail detect api tr dv k v = [] := by
  rw [emitOne, if_pos h]

theorem emitOne_nested (avail : Bool) (detect : Value → String)
    (api : Value → Option String) (tr : Bool) (dv : Option Value)
    (k : String) (v : Value) (h : v.isNested = true) :
    emitOne avail detect api tr dv k v = [] := by
  rw [emitOne]
  by_cases h1 : k = "owner" ∨ k = "license"
  · rw [if_pos h1]
  · rw [if_neg h1, if_pos h]

theorem emitOne_ne_descr (avail : Bool) (detect : Value → String)
    (api : Value → Option String) (tr : Bool) (dv dv' : Option Value)
    (k : String) (v : Value) (hk : k ≠ "description") :
    emitOne avail detect api tr dv k v = emitOne avail detect api tr dv' k v := by
  rw [emitOne, emitOne]
  by_cases h1 : k = "owner" ∨ k = "license"
  · rw [if_pos h1, if_pos h1]
  · rw [if_neg h1, if_neg h1]
    by_cases h2 : v.isNested = true
    · rw [if_pos h2, if_pos h2]
    · rw [if_neg h2, if_neg h2, if_neg (fun hc => hk hc.1),
        if_neg (fun hc => hk hc.1)]

theorem emitOne_plain (avail : Bool) (detect : Value → String)
    (api : Value → Option String) (tr : Bool) (dv : Option Value)
    (k : String) (v : Value) (h1 : ¬(k = "owner" ∨ k = "license"))
    (h2 : ¬v.isNested = true)
    (h3 : ¬(k = "description" ∧ tr = true ∧ descTruthy dv = true)) :
    emitOne avail detect api tr dv k v = [(k, pyStr v)] := by
  rw [emitOne, if_neg h1, if_neg h2, if_neg h3]

theorem emitOne_descr_both (avail : Bool) (detect : Value → String)
    (api : Value → Option String) (d v : Value) (h2 : ¬v.isNested = true)
    (htr : truthy d = true)
    (hlang : detectLang avail detect d ∉ acceptedLangs) :
    emitOne avail detect api true (some d) "description" v =
      [("description", pyStr v),
       ("description_translated", pyStr (translate_text avail api d))] := by
  rw [emitOne, if_neg (by simp), if_neg h2, if_pos ⟨rfl, rfl, htr⟩,
    if_pos (by simpa using hlang)]
  rfl

theorem emitOne_descr_accepted (avail : Bool) (detect : Value → String)
    (api : Value → Option String) (tr : Bool) (d v : Value)
    (h2 : ¬v.isNested = true)
    (hlang : detectLang avail detect d ∈ acceptedLangs) :
    emitOne avail detect api tr (some d) "description" v =
      [("description", pyStr v)] := by
  rw [emitOne, if_neg (by simp), if_neg h2]
  by_cases h3 : "description" = "description" ∧ tr = true ∧
      descTruthy (some d) = true
  · rw [if_pos h3, if_neg (by simpa using hlang)]
  · rw [if_neg h3]

/-- Every tag emitted for one record item is either the item's own key or
the derived `description_translated`. -/
theorem emitOne_fst (avail : Bool) (detect : Value → String)
    (api : Value → Option String) (tr : Bool) (dv : Option Value)
    (k : String) (v : Value) (k' : String)
    (h : k' ∈ (emitOne avail detect api tr dv k v).map Prod.fst) :
    k' = k ∨ k' = "description_translated" := by
  rw [emitOne] at h
  by_cases h1 : k = "owner" ∨ k = "license"
  · rw [if_pos h1] at h
    exact absurd h (by simp)
  · rw [if_neg h1] at h
    by_cases h2 : v.isNested = true
    · rw [if_pos h2] at h
      exact absurd h (by simp)
    · rw [if_neg h2] at h
      by_cases h3 : k = "description" ∧ tr = true ∧ descTruthy dv = true
      · rw [if_pos h3] at h
        by_cases h4 : detectLang avail detect (dv.getD Value.vNull) ∉
            acceptedLangs
        · rw [if_pos h4] at h
          simp at h
          rcases h with h | h
          · exact Or.inl h
          · exact Or.inr h
        · rw [if_neg h4] at h
          simp at h
          exact Or.inl h
      · rw [if_neg h3] at h
        simp at h
        exact Or.inl h

/-- A `description_translated` tag appears in an item's emission only if it
is the item's own key, or the enrichment branch fired: the record's
description is truthy and its detected language lies outside the accepted
set. -/
theorem emitOne_dt_mem (avail : Bool) (detect : Value → String)
    (api : Value → Option String) (tr : Bool) (dv : Option Value)
    (k : String) (v : Value)
    (h : "description_translated" ∈
      (emitOne avail detect api tr dv k v).map Prod.fst) :
    k = "description_translated" ∨
      detectLang avail detect (dv.getD Value.vNull) ∉ acceptedLangs := by
  rw [emitOne] at h
  by_cases h1 : k = "owner" ∨ k = "license"
  · rw [if_pos h1] at h
    exact absurd h (by simp)
  · rw [if_neg h1] at h
    by_cases h2 : v.isNested = true
    · rw [if_pos h2] at h
      exact absurd h (by simp)
    · rw [if_neg h2] at h
      by_cases h3 : k = "description" ∧ tr = true ∧ descTruthy dv = true
      · rw [if_pos h3] at h
        by_cases h4 : detectLang avail detect (dv.getD Value.vNull) ∉
            acceptedLangs
        · exact Or.inr h4
        · rw [if_neg h4] at h
          simp at h
          exact Or.inl h.symm
      · rw [if_neg h3] at h
        simp at h
        exact Or.inl h.symm

/-- The `owner` and `license` keys never yield a child element, whatever their
values. -/
theorem xmlItems_skip_keys (avail : Bool) (detect : Value → String)
    (api : Value → Option String) (tr : Bool) (repo : Repo) (t : String)
    (ht : t = "owner" ∨ t = "license") :
    t ∉ (xmlItems avail detect api tr repo).map Prod.fst := by
  intro hmem
  obtain ⟨q, hq, hfst⟩ := List.mem_map.mp hmem
  obtain ⟨p, hp, hqp⟩ := List.mem_flatMap.mp hq
  by_cases hk : p.1 = "owner" ∨ p.1 = "license"
  · rw [emitOne_skip_key avail detect api tr _ p.1 p.2 hk] at hqp
    exact absurd hqp (by simp)
  · rcases emitOne_fst avail detect api tr _ p.1 p.2 q.1
        (List.mem_map.mpr ⟨q, hqp, rfl⟩) with h | h
    · have hpt : p.1 = t := h.symm.trans hfst
      rcases ht with ht | ht
      · exact hk (Or.inl (hpt.trans ht))
      · exact hk (Or.inr (hpt.trans ht))
    · have : t = "description_translated" := hfst.symm.trans h
      rcases ht with ht | ht <;> rw [ht] at this <;> exact absurd this (by decide)

/-- Removing an item whose value is a nested structure does not change the
emitted child elements at all. -/
theorem xmlItems_remove_nested (avail : Bool) (detect : Value → String)
    (api : Value → Option String) (tr : Bool) (l₁ l₂ : Repo) (k : String)
    (v : Value) (hn : ((l₁ ++ (k, v) :: l₂).map Prod.fst).Nodup)
    (hnest : v.isNested = true) :
    xmlItems avail detect api tr (l₁ ++ (k, v) :: l₂) =
      xmlItems avail detect api tr (l₁ ++ l₂) := by
  rw [xmlItems, xmlItems]
  by_cases hk : k = "description"
  · subst hk
    rw [List.map_append, List.map_cons] at hn
    have hd : "description" ∉ l₁.map Prod.fst ++ l₂.map Prod.fst :=
      (List.nodup_cons.mp (List.nodup_middle.mp hn)).1
    have hd₁ : "description" ∉ l₁.map Prod.fst :=
      fun hc => hd (List.mem_append.mpr (Or.inl hc))
    have hd₂ : "description" ∉ l₂.map Prod.fst :=
      fun hc => hd (List.mem_append.mpr (Or.inr hc))
    have hdvL : getField (l₁ ++ ("description", v) :: l₂) "description" =
        some v := by
      rw [getField_append_of_not_mem l₁ _ "description" hd₁, getField,
        if_pos rfl]
    have hdvR : getField (l₁ ++ l₂) "description" = none := by
      apply getField_eq_none_of_not_mem
      rw [List.map_append]
      exact hd
    rw [hdvL, hdvR, List.flatMap_append, List.flatMap_cons,
      emitOne_nested avail detect api tr _ "description" v hnest,
      List.flatMap_append]
    have hcong : ∀ (l : Repo), "description" ∉ l.map Prod.fst →
        l.flatMap (fun p => emitOne avail detect api tr (some v) p.1 p.2) =
          l.flatMap (fun p => emitOne avail detect api tr none p.1 p.2) := by
      intro l hl
      apply flatMap_congr_mem
      intro p hp
      apply emitOne_ne_descr
      intro hc
      exact hl (List.mem_map.mpr ⟨p, hp, hc⟩)
    rw [hcong l₁ hd₁, hcong l₂ hd₂]
    simp
  · rw [getField_middle_ne l₁ l₂ k "description" v hk, List.flatMap_append,
      List.flatMap_cons, emitOne_nested avail detect api tr _ k v hnest,
      List.flatMap_append]
    simp

/-- C7.  In XML export, nested-structure fields are skipped entirely: a
record with a nested license object gets no `license` child element, one
with a nested owner no `owner` child element, and removing any
nested-valued item from a record leaves the emitted children unchanged
(the field contributes nothing, flattened or otherwise).  When enrichment
applies to the record's description (translation on, truthy non-nested
description, detected language outside the accepted set), both a
`description` and a `description_translated` child are emitted. -/
theorem xml_nested_skipped_and_enrichment_children (avail : Bool)
    (detect : Value → String) (api : Value → Option String) (tr : Bool)
    (repo : Repo) (hn : (repo.map Prod.fst).Nodup) :
    (∀ v, getField repo "license" = some v → v.isNested = true →
      "license" ∉ (xmlItems avail detect api tr repo).map Prod.fst) ∧
    (∀ v, getField repo "owner" = some v → v.isNested = true →
      "owner" ∉ (xmlItems avail detect api tr repo).map Prod.fst) ∧
    (∀ (l₁ l₂ : Repo) (k : String) (v : Value), repo = l₁ ++ (k, v) :: l₂ →
      v.isNested = true →
      xmlItems avail detect api tr repo =
        xmlItems avail detect api tr (l₁ ++ l₂)) ∧
    (∀ d, tr = true → getField repo "description" = some d →
      truthy d = true → d.isNested = false →
      detectLang avail detect d ∉ acceptedLangs →
      "description" ∈ (xmlItems avail detect api tr repo).map Prod.fst ∧
      "description_translated" ∈
        (xmlItems avail detect api tr repo).map Prod.fst) := by
  refine ⟨?_, ?_, ?_, ?_⟩
  · intro v _ _
    exact xmlItems_skip_keys avail detect api tr repo "license" (Or.inr rfl)
  · intro v _ _
    exact xmlItems_skip_keys avail detect api tr repo "owner" (Or.inl rfl)
  · intro l₁ l₂ k v hrepo hnest
    subst hrepo
    exact xmlItems_remove_nested avail detect api tr l₁ l₂ k v hn hnest
  · intro d htr hget htruthy hnest hlang
    subst htr
    have hpair : ("description", d) ∈ repo :=
      getField_some_mem repo "description" d hget
    have hboth : emitOne avail detect api true
        (getField repo "description") "description" d =
        [("description", pyStr d),
         ("description_translated", pyStr (translate_text avail api d))] := by
      rw [hget]
      exact emitOne_descr_both avail detect api d d (by simp [hnest])
        htruthy hlang
    constructor
    · refine List.mem_map.mpr ⟨("description", pyStr d), ?_, rfl⟩
      rw [xmlItems]
      refine List.mem_flatMap.mpr ⟨("description", d), hpair, ?_⟩
      show ("description", pyStr d) ∈ emitOne avail detect api true
        (getField repo "description") "description" d
      rw [hboth]
      simp
    · refine List.mem_map.mpr
        ⟨("description_translated", pyStr (translate_text avail api d)),
          ?_, rfl⟩
      rw [xmlItems]
      refine List.mem_flatMap.mpr ⟨("description", d), hpair, ?_⟩
      show ("description_translated", pyStr (translate_text avail api d)) ∈
        emitOne avail detect api true (getField repo "description")
          "description" d
      rw [hboth]
      simp

theorem xml_nested_skipped_and_enrichment_children_witness :
    "license" ∉ (xmlItems true detectFr apiHello true repoX).map Prod.fst ∧
    xmlItems true detectFr apiHello true repoX =
      xmlItems true detectFr apiHello true
        ([("name", Value.vStr "proj"),
          ("license", Value.vDict [("name", Value.vStr "MIT")])] ++
         [("description", Value.vStr "Bonjour le monde")]) ∧
    "description_translated" ∈
      (xmlItems true detectFr apiHello true repoX).map Prod.fst :=
  ⟨(xml_nested_skipped_and_enrichment_children true detectFr apiHello true
      repoX (by decide)).1 (Value.vDict [("name", Value.vStr "MIT")]) rfl rfl,
   (xml_nested_skipped_and_enrichment_children true detectFr apiHello true
      repoX (by decide)).2.2.1
     [("name", Value.vStr "proj"),
      ("license", Value.vDict [("name", Value.vStr "MIT")])]
     [("description", Value.vStr "Bonjour le monde")]
     "owner" (Value.vDict [("login", Value.vStr "mo")]) rfl rfl,
   ((xml_nested_skipped_and_enrichment_children true detectFr apiHello true
      repoX (by decide)).2.2.2 (Value.vStr "Bonjour le monde") rfl rfl
     (by decide) rfl (by decide)).2⟩

/-! ## C10: XML scalar rendering through `str` -/

/-- C10.  Every scalar field a record owns (outside the skipped `owner` /
`license` keys) is emitted with its `str(value)` rendering: a boolean field
becomes the text `True` or `False`, and a null-valued field becomes the
four-character text `None` — not an empty element.  (For the boolean case
the field must not be the description: a truthy description is subject to
the enrichment branch instead.) -/
theorem xml_renders_scalars_with_str (avail : Bool)
    (detect : Value → String) (api : Value → Option String) (tr : Bool)
    (repo : Repo) (hn : (repo.map Prod.fst).Nodup) (k : String) (b : Bool) :
    ((k, Value.vBool b) ∈ repo → k ≠ "owner" → k ≠ "license" →
      k ≠ "description" →
      (k, if b then "True" else "False") ∈
        xmlItems avail detect api tr repo) ∧
    ((k, Value.vNull) ∈ repo → k ≠ "owner" → k ≠ "license" →
      (k, "None") ∈ xmlItems avail detect api tr repo) := by
  constructor
  · intro hmem hko hkl hkd
    have h1 : ¬(k = "owner" ∨ k = "license") := by
      rintro (h | h)
      · exact hko h
      · exact hkl h
    have hemit : emitOne avail detect api tr (getField repo "description")
        k (Value.vBool b) = [(k, pyStr (Value.vBool b))] :=
      emitOne_plain avail detect api tr _ k (Value.vBool b) h1
        (by simp [Value.isNested]) (fun hc => hkd hc.1)
    rw [xmlItems]
    refine List.mem_flatMap.mpr ⟨(k, Value.vBool b), hmem, ?_⟩
    show (k, if b then "True" else "False") ∈
      emitOne avail detect api tr (getField repo "description") k
        (Value.vBool b)
    rw [hemit]
    cases b <;> simp [pyStr]
  · intro hmem hko hkl
    have h1 : ¬(k = "owner" ∨ k = "license") := by
      rintro (h | h)
      · exact hko h
      · exact hkl h
    by_cases hkd : k = "description"
    · subst hkd
      have hdv : getField repo "description" = some Value.vNull :=
        getField_eq_of_nodup repo "description" Value.vNull hn hmem
      have h3 : ¬("description" = "description" ∧ tr = true ∧
          descTruthy (getField repo "description") = true) := by
        rw [hdv]
        simp [descTruthy, truthy]
      have hemit : emitOne avail detect api tr
          (getField repo "description") "description" Value.vNull =
          [("description", pyStr Value.vNull)] :=
        emitOne_plain avail detect api tr _ "description" Value.vNull h1
          (by simp [Value.isNested]) h3
      rw [xmlItems]
      refine List.mem_flatMap.mpr ⟨("description", Value.vNull), hmem, ?_⟩
      show ("description", "None") ∈ emitOne avail detect api tr
        (getField repo "description") "description" Value.vNull
      rw [hemit]
      simp [pyStr]
    · have hemit : emitOne avail detect api tr
          (getField repo "description") k Value.vNull =
          [(k, pyStr Value.vNull)] :=
        emitOne_plain avail detect api tr _ k Value.vNull h1
          (by simp [Value.isNested]) (fun hc => hkd hc.1)
      rw [xmlItems]
      refine List.mem_flatMap.mpr ⟨(k, Value.vNull), hmem, ?_⟩
      show (k, "None") ∈ emitOne avail detect api tr
        (getField repo "description") k Value.vNull
      rw [hemit]
      simp [pyStr]

theorem xml_renders_scalars_with_str_witness :
    ("fork", "True") ∈ xmlItems true detectEn apiNone true repoB ∧
    ("mirror_url", "None") ∈ xmlItems true detectEn apiNone true repoB :=
  ⟨(xml_renders_scalars_with_str true detectEn apiNone true repoB
      (by decide) "fork" true).1 (by simp [repoB]) (by decide) (by decide)
      (by decide),
   (xml_renders_scalars_with_str true detectEn apiNone true repoB
      (by decide) "mirror_url" true).2 (by simp [repoB]) (by decide)
      (by decide)⟩

/-! ## C5: the enrichment policy across formats -/

/-- C5 counterexample.  Enrichment enabled, record with non-empty
description, detected tag "en" inside the accepted set: the XML exporter
emits only the `description` child — no `description_translated` element
at all, empty or otherwise.  The claim that the accepted-tag case stores
an explicit empty `description_translated` uniformly across JSON, CSV/TSV
and XML is therefore false on the XML path. -/
theorem xml_accepted_tag_omits_translated_field :
    xmlItems true detectEn apiHello true repoEn =
      [("name", "x"), ("description", "hello")] ∧
    "description_translated" ∉
      (xmlItems true detectEn apiHello true repoEn).map Prod.fst := by
  constructor
  · rfl
  · decide

/-- C5 (amended).  With enrichment enabled, a record with a truthy
description is classified, and exactly when the detected tag lies outside
the accepted set (en, ar) the translation is stored under
`description_translated`; when the tag is accepted, JSON and CSV/TSV store
an explicit empty string there, while the XML path emits no
`description_translated` element at all.  Records without a truthy
description are not classified and left untouched.  The translated child
does appear in XML in the non-accepted case. -/
theorem enrichment_policy_per_format (avail : Bool)
    (detect : Value → String) (api : Value → Option String) (repo : Repo)
    (d : Value) :
    (getField repo "description" = some d → truthy d = true →
      ((detectLang avail detect d ∉ acceptedLangs →
        getField (enrichRecord avail detect api true repo)
          "description_translated" = some (translate_text avail api d)) ∧
       (detectLang avail detect d ∈ acceptedLangs →
        getField (enrichRecord avail detect api true repo)
          "description_translated" = some (Value.vStr "")))) ∧
    ((getField repo "description" = none →
      ∀ tr, enrichRecord avail detect api tr repo = repo) ∧
     (getField repo "description" = some d → truthy d = false →
      ∀ tr, enrichRecord avail detect api tr repo = repo)) ∧
    (∀ asr, csvRowAssoc avail detect api true repo = some asr →
      getField repo "description" = some d → truthy d = true →
      ((detectLang avail detect d ∉ acceptedLangs →
        getField asr "description_translated" =
          some (translate_text avail api d)) ∧
       (detectLang avail detect d ∈ acceptedLangs →
        getField asr "description_translated" = some (Value.vStr "")))) ∧
    (getField repo "description" = some d → truthy d = true →
      d.isNested = false →
      ((detectLang avail detect d ∉ acceptedLangs →
        ("description_translated", pyStr (translate_text avail api d)) ∈
          xmlItems avail detect api true repo) ∧
       (detectLang avail detect d ∈ acceptedLangs →
        getField repo "description_translated" = none →
        "description_translated" ∉
          (xmlItems avail detect api true repo).map Prod.fst))) := by
  refine ⟨?_, ⟨?_, ?_⟩, ?_, ?_⟩
  · intro hget htruthy
    constructor
    · intro hlang
      have he : enrichRecord avail detect api true repo =
          setField repo "description_translated"
            (translate_text avail api d) := by
        simp [enrichRecord, hget, htruthy, hlang]
      rw [he]
      exact getField_setField_self repo _ _
    · intro hlang
      have he : enrichRecord avail detect api true repo =
          setField repo "description_translated" (Value.vStr "") := by
        simp [enrichRecord, hget, htruthy, hlang]
      rw [he]
      exact getField_setField_self repo _ _
  · intro hget tr
    simp [enrichRecord, hget]
  · intro hget htruthy tr
    simp [enrichRecord, hget, htruthy]
  · intro asr hassoc hget htruthy
    cases hls : licenseStep repo (baseRow repo) with
    | none =>
      rw [csvRowAssoc, hls] at hassoc
      exact absurd hassoc (by simp)
    | some row1 =>
      rw [csvRowAssoc, hls] at hassoc
      simp only [Option.map_some'] at hassoc
      have hasr : translateStep avail detect api true repo row1 = asr := by
        injection hassoc
      have hdt : "description_translated" ∈ row1.map Prod.fst := by
        rw [licenseStep_keys repo _ row1 hls, baseRow_keys]
        decide
      constructor
      · intro hlang
        have ht : translateStep avail detect api true repo row1 =
            rowSet row1 "description_translated"
              (translate_text avail api d) := by
          simp [translateStep, hget, htruthy, hlang]
        rw [← hasr, ht]
        exact getField_rowSet_self _ _ row1 hdt
      · intro hlang
        have ht : translateStep avail detect api true repo row1 =
            rowSet row1 "description_translated" (Value.vStr "") := by
          simp [translateStep, hget, htruthy, hlang]
        rw [← hasr, ht]
        exact getField_rowSet_self _ _ row1 hdt
  · intro hget htruthy hnest
    constructor
    · intro hlang
      have hpair : ("description", d) ∈ repo :=
        getField_some_mem repo "description" d hget
      have hboth : emitOne avail detect api true
          (getField repo "description") "description" d =
          [("description", pyStr d),
           ("description_translated",
            pyStr (translate_text avail api d))] := by
        rw [hget]
        exact emitOne_descr_both avail detect api d d (by simp [hnest])
          htruthy hlang
      rw [xmlItems]
      refine List.mem_flatMap.mpr ⟨("description", d), hpair, ?_⟩
      show ("description_translated", pyStr (translate_text avail api d)) ∈
        emitOne avail detect api true (getField repo "description")
          "description" d
      rw [hboth]
      simp
    · intro hlang hnodt hmem
      obtain ⟨q, hq, hfst⟩ := List.mem_map.mp hmem
      rw [xmlItems] at hq
      obtain ⟨p, hp, hqp⟩ := List.mem_flatMap.mp hq
      rcases emitOne_dt_mem avail detect api true
          (getField repo "description") p.1 p.2
          (List.mem_map.mpr ⟨q, hqp, hfst⟩) with hdtk | hnl
      · have hsome := mem_getField_isSome repo p.1 p.2
          (by rw [Prod.mk.eta]; exact hp)
        rw [hdtk, hnodt] at hsome
        exact absurd hsome (by simp)
      · rw [hget] at hnl
        simp only [Option.getD_some] at hnl
        exact hnl hlang

theorem enrichment_policy_per_format_witness :
    getField (enrichRecord true detectFr apiHello true repoEn)
      "description_translated" = some (Value.vStr "hello world") ∧
    getField (enrichRecord true detectEn apiHello true repoEn)
      "description_translated" = some (Value.vStr "") ∧
    ("description_translated", "hello world") ∈
      xmlItems true detectFr apiHello true repoEn ∧
    "description_translated" ∉
      (xmlItems true detectEn apiHello true repoEn).map Prod.fst :=
  ⟨((enrichment_policy_per_format true detectFr apiHello repoEn
      (Value.vStr "hello")).1 rfl (by decide)).1 (by decide),
   ((enrichment_policy_per_format true detectEn apiHello repoEn
      (Value.vStr "hello")).1 rfl (by decide)).2 (by decide),
   ((enrichment_policy_per_format true detectFr apiHello repoEn
      (Value.vStr "hello")).2.2.2 rfl (by decide) rfl).1 (by decide),
   ((enrichment_policy_per_format true detectEn apiHello repoEn
      (Value.vStr "hello")).2.2.2 rfl (by decide) rfl).2 (by decide) rfl⟩

/-! ## CSV row lemmas -/

theorem translateStep_false (avail : Bool) (detect : Value → String)
    (api : Value → Option String) (repo : Repo)
    (row : List (String × Value)) :
    translateStep avail detect api false repo row = row := by
  cases hd : getField repo "description" with
  | none => simp [translateStep, hd]
  | some dd => simp [translateStep, hd]

theorem getField_translateStep_ne (avail : Bool) (detect : Value → String)
    (api : Value → Option String) (tr : Bool) (repo : Repo)
    (row : List (String × Value)) (fld : String)
    (h : fld ≠ "description_translated") :
    getField (translateStep avail detect api tr repo row) fld =
      getField row fld := by
  cases hd : getField repo "description" with
  | none => simp [translateStep, hd]
  | some dd =>
    by_cases htd : (tr && truthy dd) = true
    · have hsplit : translateStep avail detect api tr repo row =
          rowSet row "description_translated"
            (translate_text avail api dd) ∨
        translateStep avail detect api tr repo row =
          rowSet row "description_translated" (Value.vStr "") := by
        by_cases hl : detectLang avail detect dd ∉ acceptedLangs
        · left
          simp [translateStep, hd, htd, hl]
        · right
          simp [translateStep, hd, htd, hl]
      rcases hsplit with h' | h' <;> rw [h'] <;>
        exact getField_rowSet_ne _ _ _ h row
    · simp [translateStep, hd, htd]

theorem getField_licenseStep_ne (repo : Repo)
    (row row' : List (String × Value)) (fld : String)
    (hls : licenseStep repo row = some row') (h : fld ≠ "license") :
    getField row' fld = getField row fld := by
  cases hl : getField repo "license" with
  | none =>
    simp [licenseStep, hl] at hls
    rw [← hls]
  | some lv =>
    by_cases htv : truthy lv = true
    · cases lv with
      | vDict l =>
        simp [licenseStep, hl, htv] at hls
        rw [← hls]
        exact getField_rowSet_ne _ _ _ h row
      | vStr s => simp [licenseStep, hl, htv] at hls
      | vInt n => simp [licenseStep, hl, htv] at hls
      | vBool b => simp [licenseStep, hl, htv] at hls
      | vNull => simp [licenseStep, hl, htv] at hls
      | vList xs => simp [licenseStep, hl, htv] at hls
    · simp [licenseStep, hl, htv] at hls
      rw [← hls]

/-! ## C6: the CSV/TSV projection -/

/-- C6 counterexample.  Four clauses of the claim fail on the code, each
at an explicit input.  (i) For the empty collection `save_to_csv` returns
at the `if not data: return` guard before opening the file: nothing is
written, in particular no header row — against "for every collection ...
write a header row".  (ii) With enrichment enabled, a record missing the
`description_translated` field but carrying a French description renders
that missing field as the translated text, not the empty string — against
"every field missing from a record renders as the empty string".
(iii) A record whose license is an empty — hence falsy — dict is not
projected to the display-name sub-field: the guard of line 121 fails and
the cell renders as the `str()` form of the dict, not as the empty
string — against the unqualified license-projection clause.  (iv) The CSV
and TSV byte outputs differ by more than the delimiter: the cell `a,b`
is quoted in the CSV serialization only (QUOTE_MINIMAL quotes cells
containing the active delimiter), so substituting tabs for commas in the
CSV output does not yield the TSV output. -/
theorem csv_projection_counterexamples :
    (save_to_csv true detectEn apiNone [] false ',' = none ∧
     save_to_csv true detectEn apiNone [] false '\t' = none) ∧
    (getField repoEn "description_translated" = none ∧
     csvRowOf true detectFr apiHello true repoEn =
       some ["x", "", "", "hello", "hello world", "", "", "", "", "", ""]) ∧
    (getField repoEmptyLic "license" = some (Value.vDict []) ∧
     csvRowOf true detectEn apiNone false repoEmptyLic =
       some ["x", "", "", "", "", "", "", "", "", pyStr (Value.vDict []),
         ""] ∧
     pyStr (Value.vDict []) ≠ "") ∧
    ((save_to_csv true detectEn apiNone [repoComma] false ',').map
        (fun s => s.toList.map (fun c => if c = ',' then '\t' else c)) ≠
      (save_to_csv true detectEn apiNone [repoComma] false '\t').map
        String.toList) :=
  ⟨⟨rfl, rfl⟩, ⟨rfl, rfl⟩, ⟨rfl, rfl, by decide⟩, by decide⟩

/-- C6 (amended).  For every non-empty collection the CSV/TSV exporter
writes a header row of exactly the 11 projected fields in order, while
the empty collection produces no output at all (no header row); a field
missing from a record renders as the empty string, except
`description_translated` with enrichment enabled, which is filled per the
enrichment rule (translated text for a foreign truthy description, empty
string for an accepted one); a non-empty (truthy) nested license object
is projected to its `name` sub-field, the empty string when that
sub-field is absent; CSV and TSV are serialized from the same row matrix
and differ only in the delimiter handed to the serializer (byte identity
up to delimiter substitution fails where quoting differs, as the
counterexample shows). -/
theorem csv_projection_and_delimiter (avail : Bool)
    (detect : Value → String) (api : Value → Option String) (tr : Bool) :
    csvRows avail detect api tr [] = none ∧
    (∀ (data : List Repo) (rows : List (List String)), data ≠ [] →
      csvRows avail detect api tr data = some rows →
      rows.head? = some ["name", "full_name", "html_url", "description",
        "description_translated", "stargazers_count", "watchers_count",
        "forks_count", "language", "license", "updated_at"]) ∧
    (∀ (repo : Repo) (asr : List (String × Value)) (fld : String),
      csvRowAssoc avail detect api tr repo = some asr →
      fld ∈ csvFieldnames → getField repo fld = none →
      (tr = false ∨ fld ≠ "description_translated") →
      (getField asr fld).map csvRender = some "") ∧
    (∀ (repo : Repo) (asr : List (String × Value)) (d : Value),
      tr = true →
      csvRowAssoc avail detect api tr repo = some asr →
      getField repo "description" = some d → truthy d = true →
      ((detectLang avail detect d ∉ acceptedLangs →
        getField asr "description_translated" =
          some (translate_text avail api d)) ∧
       (detectLang avail detect d ∈ acceptedLangs →
        getField asr "description_translated" = some (Value.vStr "")))) ∧
    (∀ (repo : Repo) (asr : List (String × Value))
        (l : List (String × Value)),
      csvRowAssoc avail detect api tr repo = some asr →
      getField repo "license" = some (Value.vDict l) →
      truthy (Value.vDict l) = true →
      getField asr "license" =
        some ((getField l "name").getD (Value.vStr "")) ∧
      (getField l "name" = none →
        (getField asr "license").map csvRender = some "")) ∧
    (∀ (data : List Repo),
      save_to_csv avail detect api data tr ',' =
        (csvRows avail detect api tr data).map (csvSerialize ',') ∧
      save_to_csv avail detect api data tr '\t' =
        (csvRows avail detect api tr data).map (csvSerialize '\t')) := by
  refine ⟨rfl, ?_, ?_, ?_, ?_, fun data => ⟨rfl, rfl⟩⟩
  · intro data rows hne hr
    cases data with
    | nil => exact absurd rfl hne
    | cons a t =>
      rw [csvRows] at hr
      cases hx : csvRowsAux avail detect api tr (a :: t) with
      | none => rw [hx] at hr; exact absurd hr (by simp)
      | some rs =>
        rw [hx] at hr
        simp only [Option.map_some'] at hr
        injection hr with hr
        rw [← hr]
        rfl
  · intro repo asr fld hassoc hfldmem hnone hcase
    cases hls : licenseStep repo (baseRow repo) with
    | none =>
      rw [csvRowAssoc, hls] at hassoc
      exact absurd hassoc (by simp)
    | some row1 =>
      rw [csvRowAssoc, hls] at hassoc
      simp only [Option.map_some'] at hassoc
      have hasr : translateStep avail detect api tr repo row1 = asr := by
        injection hassoc
      have h1 : getField asr fld = getField row1 fld := by
        rcases hcase with htr0 | hfld
        · subst htr0
          rw [← hasr, translateStep_false]
        · rw [← hasr]
          exact getField_translateStep_ne avail detect api tr repo row1
            fld hfld
      have h2 : getField row1 fld = getField (baseRow repo) fld := by
        by_cases hfl : fld = "license"
        · subst hfl
          simp [licenseStep, hnone] at hls
          rw [← hls]
        · exact getField_licenseStep_ne repo (baseRow repo) row1 fld hls hfl
      rw [h1, h2, getField_baseRow repo fld hfldmem, hnone]
      rfl
  · intro repo asr d htr0 hassoc hget htruthy
    subst htr0
    cases hls : licenseStep repo (baseRow repo) with
    | none =>
      rw [csvRowAssoc, hls] at hassoc
      exact absurd hassoc (by simp)
    | some row1 =>
      rw [csvRowAssoc, hls] at hassoc
      simp only [Option.map_some'] at hassoc
      have hasr : translateStep avail detect api true repo row1 = asr := by
        injection hassoc
      have hdt : "description_translated" ∈ row1.map Prod.fst := by
        rw [licenseStep_keys repo _ row1 hls, baseRow_keys]
        decide
      constructor
      · intro hlang
        have ht : translateStep avail detect api true repo row1 =
            rowSet row1 "description_translated"
              (translate_text avail api d) := by
          simp [translateStep, hget, htruthy, hlang]
        rw [← hasr, ht]
        exact getField_rowSet_self _ _ row1 hdt
      · intro hlang
        have ht : translateStep avail detect api true repo row1 =
            rowSet row1 "description_translated" (Value.vStr "") := by
          simp [translateStep, hget, htruthy, hlang]
        rw [← hasr, ht]
        exact getField_rowSet_self _ _ row1 hdt
  · intro repo asr l hassoc hl htv
    cases hls : licenseStep repo (baseRow repo) with
    | none =>
      rw [csvRowAssoc, hls] at hassoc
      exact absurd hassoc (by simp)
    | some row1 =>
      rw [csvRowAssoc, hls] at hassoc
      simp only [Option.map_some'] at hassoc
      have hasr : translateStep avail detect api tr repo row1 = asr := by
        injection hassoc
      have hrow1 : rowSet (baseRow repo) "license"
          ((getField l "name").getD (Value.vStr "")) = row1 := by
        simp [licenseStep, hl, htv] at hls
        exact hls
      have h1 : getField asr "license" = getField row1 "license" := by
        rw [← hasr]
        exact getField_translateStep_ne avail detect api tr repo row1
          "license" (by decide)
      have h2 : getField row1 "license" =
          some ((getField l "name").getD (Value.vStr "")) := by
        rw [← hrow1]
        exact getField_rowSet_self _ _ _ (by rw [baseRow_keys]; decide)
      refine ⟨by rw [h1, h2], fun hname => ?_⟩
      rw [h1, h2, hname]
      rfl

theorem csv_projection_and_delimiter_witness :
    ((["name", "full_name", "html_url", "description",
       "description_translated", "stargazers_count", "watchers_count",
       "forks_count", "language", "license", "updated_at"] ::
      [["x", "", "", "hello", "", "", "", "", "", "", ""]]) :
        List (List String)).head? =
      some ["name", "full_name", "html_url", "description",
        "description_translated", "stargazers_count", "watchers_count",
        "forks_count", "language", "license", "updated_at"] ∧
    (getField
      [("name", Value.vStr "proj"), ("full_name", Value.vStr ""),
       ("html_url", Value.vStr ""),
       ("description", Value.vStr "Bonjour le monde"),
       ("description_translated", Value.vStr ""),
       ("stargazers_count", Value.vStr ""),
       ("watchers_count", Value.vStr ""), ("forks_count", Value.vStr ""),
       ("language", Value.vStr ""), ("license", Value.vStr "MIT"),
       ("updated_at", Value.vStr "")] "language").map csvRender =
      some "" ∧
    getField
      [("name", Value.vStr "proj"), ("full_name", Value.vStr ""),
       ("html_url", Value.vStr ""),
       ("description", Value.vStr "Bonjour le monde"),
       ("description_translated", Value.vStr ""),
       ("stargazers_count", Value.vStr ""),
       ("watchers_count", Value.vStr ""), ("forks_count", Value.vStr ""),
       ("language", Value.vStr ""), ("license", Value.vStr "MIT"),
       ("updated_at", Value.vStr "")] "license" =
      some (Value.vStr "MIT") ∧
    getField
      [("name", Value.vStr "x"), ("full_name", Value.vStr ""),
       ("html_url", Value.vStr ""), ("description", Value.vStr "hello"),
       ("description_translated", Value.vStr "hello world"),
       ("stargazers_count", Value.vStr ""),
       ("watchers_count", Value.vStr ""), ("forks_count", Value.vStr ""),
       ("language", Value.vStr ""), ("license", Value.vStr ""),
       ("updated_at", Value.vStr "")] "description_translated" =
      some (Value.vStr "hello world") :=
  ⟨(csv_projection_and_delimiter true detectEn apiNone false).2.1
      [repoEn] _ (List.cons_ne_nil repoEn []) rfl,
   (csv_projection_and_delimiter true detectEn apiNone false).2.2.1
      repoX _ "language" rfl (by decide) rfl (Or.inl rfl),
   ((csv_projection_and_delimiter true detectEn apiNone false).2.2.2.2.1
      repoX _ [("name", Value.vStr "MIT")] rfl rfl (by decide)).1,
   ((csv_projection_and_delimiter true detectFr apiHello true).2.2.2.1
      repoEn _ (Value.vStr "hello") rfl rfl rfl (by decide)).1
     (by decide)⟩
